import Mathlib

/-!
Verification of the helper library `handyFunctions.py`.

The functions are embedded over exact arithmetic: real numbers for the
trigonometric velocity conversions and circular statistics, rational numbers
for the nearest-coordinate search (which only uses subtraction, absolute
value and order comparison), and integer microseconds for the datetime
midpoint (Python datetimes have exact microsecond resolution, and division
of a timedelta by an integer rounds to the nearest microsecond with ties to
even).
-/

namespace HandyFunctions

/-- Model of the Python string method `lower()` on the ASCII category
strings used here: lowercase every character. -/
def pyLower (s : String) : String := ⟨s.data.map Char.toLower⟩

noncomputable section

/-- Degrees to radians, modelling `np.deg2rad`. -/
def deg2rad (x : ℝ) : ℝ := x * (Real.pi / 180)

/-- Radians to degrees, modelling `np.rad2deg`. -/
def rad2deg (x : ℝ) : ℝ := x * (180 / Real.pi)

/-- Two-argument arctangent, modelling `np.arctan2 y x`: the angle of the
vector `(x, y)`, in `(-π, π]`, i.e. the complex argument of `x + y·i`. -/
def arctan2 (y x : ℝ) : ℝ := Complex.arg ⟨x, y⟩

/-- Floored modulus by 360, modelling `np.mod(x, 360)`. -/
def mod360 (x : ℝ) : ℝ := x - 360 * ⌊x / 360⌋

/-- Model of `uv2intdir(u, v, data_type, mag_decl=0.0)`: converts zonal and
meridional velocity components into speed and direction.  The Python source
computes `spd = np.sqrt(u**2 + v**2)` and, depending on
`data_type.lower() == "current"`, the direction
`np.mod(90 - (np.rad2deg(np.arctan2(v, u)) - mag_decl), 360)` or
`np.mod(270 - (np.rad2deg(np.arctan2(v, u)) - mag_decl), 360)`. -/
def uv2intdir (u v : ℝ) (data_type : String) (mag_decl : ℝ) : ℝ × ℝ :=
  (Real.sqrt (u ^ 2 + v ^ 2),
    if pyLower data_type = "current" then
      mod360 (90 - (rad2deg (arctan2 v u) - mag_decl))
    else
      mod360 (270 - (rad2deg (arctan2 v u) - mag_decl)))

/-- Model of `intdir2uv(spd, direc, data_type)`: converts speed and direction
back to zonal and meridional components.  The Python source sets
`ang = np.deg2rad(direc)` and returns `(spd*sin(ang), spd*cos(ang))` for
`data_type.lower() == "current"`, else
`(spd*sin(ang)*(-1), spd*cos(ang)*(-1))`. -/
def intdir2uv (spd direc : ℝ) (data_type : String) : ℝ × ℝ :=
  let ang := deg2rad direc
  if pyLower data_type = "current" then
    (spd * Real.sin ang, spd * Real.cos ang)
  else
    (spd * Real.sin ang * (-1), spd * Real.cos ang * (-1))

/-- Floored modulus by `2·π`, modelling the reduction of
`scipy.stats.circmean` into its default bounds `[0, 2·π)`. -/
def mod2pi (x : ℝ) : ℝ := x - 2 * Real.pi * ⌊x / (2 * Real.pi)⌋

/-- Mean of a list of reals (`0` for the empty list), used for the sine and
cosine parts of the mean resultant vector. -/
def listMean (l : List ℝ) : ℝ := l.sum / l.length

/-- Model of `scipy.stats.circmean` in radians with the default bounds
`low = 0`, `high = 2·π`: the argument of the mean resultant vector of the
sample, reduced to `[0, 2·π)`. -/
def circmean (l : List ℝ) : ℝ :=
  mod2pi (arctan2 (listMean (l.map Real.sin)) (listMean (l.map Real.cos)))

/-- Model of `scipy.stats.circstd` in radians: `sqrt(-2·ln R)` where `R` is
the length of the mean resultant vector of the sample. -/
def circstd (l : List ℝ) : ℝ :=
  Real.sqrt (-2 * Real.log (Real.sqrt
    (listMean (l.map Real.sin) ^ 2 + listMean (l.map Real.cos) ^ 2)))

/-- A direction series: missing entries (`NaN` in the pandas series) are
modelled as `none`.  `dropna` keeps the present values, in order, modelling
`direc.dropna()`. -/
def dropna (l : List (Option ℝ)) : List ℝ := l.filterMap id

/-- Model of `np.nanmin`: minimum over the non-missing entries, `none` when
every entry is missing (numpy yields `NaN` there, with a warning). -/
def nanmin (l : List (Option ℝ)) : Option ℝ :=
  match dropna l with
  | [] => none
  | x :: xs => some (xs.foldl min x)

/-- Model of `np.nanmax`: maximum over the non-missing entries, `none` when
every entry is missing. -/
def nanmax (l : List (Option ℝ)) : Option ℝ :=
  match dropna l with
  | [] => none
  | x :: xs => some (xs.foldl max x)

/-- Model of `dirstats(direc)`: the 4-tuple of circular mean, circular
standard deviation (both computed on `direc.dropna()` converted to radians
and reported in degrees), `np.nanmin(direc)` and `np.nanmax(direc)`. -/
def dirstats (direc : List (Option ℝ)) : ℝ × ℝ × Option ℝ × Option ℝ :=
  (rad2deg (circmean ((dropna direc).map deg2rad)),
   rad2deg (circstd ((dropna direc).map deg2rad)),
   nanmin direc,
   nanmax direc)

end

/-- Model of the Python builtin `min(arr, key=k)`: the first element of the
list attaining the minimal key; `none` for the empty list (where Python
raises `ValueError`).  The candidate values are rationals, which cover every
floating-point input, since the search only subtracts and compares. -/
def pyMinKey (k : ℚ → ℚ) : List ℚ → Option ℚ
  | [] => none
  | x :: xs =>
    match pyMinKey k xs with
    | none => some x
    | some m => some (if k m < k x then m else x)

/-- Model of `np.where(arr == val)[0][0]`: the index of the first occurrence
of `val` in `arr`; `none` when `val` does not occur (Python raises
`IndexError`). -/
def npWhereFirst (arr : List ℚ) (val : ℚ) : Option ℕ :=
  match arr with
  | [] => none
  | x :: xs =>
    if x = val then some 0 else Option.map (fun i => i + 1) (npWhereFirst xs val)

/-- Model of `find_nearest_lonlat(lon, lat, lon_arr, lat_arr)`: for each
array, take the value nearest to the target
(`min(arr, key=lambda x: abs(x - target))`) and return the index of its first
occurrence (`np.where(arr == value)[0][0]`); `none` models the exceptions
raised on empty input. -/
def find_nearest_lonlat (lon lat : ℚ) (lon_arr lat_arr : List ℚ) :
    Option (ℕ × ℕ) :=
  match pyMinKey (fun x => |x - lon|) lon_arr,
        pyMinKey (fun x => |x - lat|) lat_arr with
  | some lonVal, some latVal =>
    match npWhereFirst lon_arr lonVal, npWhereFirst lat_arr latVal with
    | some i, some j => some (i, j)
    | _, _ => none
  | _, _ => none

/-- Specification predicate: index `i` points at the first element of `arr`
minimising the absolute difference to `target`. -/
def isFirstNearest (target : ℚ) (arr : List ℚ) (i : ℕ) : Prop :=
  i < arr.length ∧
    (∀ j, j < arr.length → |arr.getD i 0 - target| ≤ |arr.getD j 0 - target|) ∧
    (∀ j, j < i → |arr.getD i 0 - target| < |arr.getD j 0 - target|)

/-- Division of a Python `timedelta` (an exact count of microseconds) by the
integer 2: `timedelta / int` rounds to the nearest representable microsecond
with ties going to the even neighbour. -/
def timedeltaHalf (d : ℤ) : ℤ :=
  if d % 2 = 0 then d / 2
  else if (d / 2) % 2 = 0 then d / 2 else d / 2 + 1

/-- Model of `central_date(iniDate, finDate)` over timestamps measured in
integer microseconds (the exact resolution of Python datetimes):
`iniDate + (finDate - iniDate) / 2` in datetime arithmetic. -/
def central_date (iniDate finDate : ℤ) : ℤ :=
  iniDate + timedeltaHalf (finDate - iniDate)

/- ### Helper lemmas about the angle arithmetic -/

theorem mod360_nonneg (x : ℝ) : 0 ≤ mod360 x := by
  have h : mod360 x = 360 * Int.fract (x / 360) := by
    simp only [mod360, Int.fract]
    ring
  rw [h]
  have := Int.fract_nonneg (x / 360)
  linarith

theorem mod360_lt (x : ℝ) : mod360 x < 360 := by
  have h : mod360 x = 360 * Int.fract (x / 360) := by
    simp only [mod360, Int.fract]
    ring
  rw [h]
  have := Int.fract_lt_one (x / 360)
  linarith

theorem mod360_sub_int_mul (x : ℝ) (k : ℤ) : mod360 (x - 360 * k) = mod360 x := by
  simp only [mod360]
  have h : (x - 360 * k) / 360 = x / 360 - k := by
    field_simp
  rw [h, Int.floor_sub_int]
  push_cast
  ring

theorem deg2rad_mod360 (y : ℝ) :
    deg2rad (mod360 y) = deg2rad y + (-⌊y / 360⌋ : ℤ) * (2 * Real.pi) := by
  simp only [deg2rad, mod360]
  push_cast
  ring

theorem sin_deg2rad_mod360 (y : ℝ) :
    Real.sin (deg2rad (mod360 y)) = Real.sin (deg2rad y) := by
  rw [deg2rad_mod360]
  exact Real.sin_add_int_mul_two_pi _ _

theorem cos_deg2rad_mod360 (y : ℝ) :
    Real.cos (deg2rad (mod360 y)) = Real.cos (deg2rad y) := by
  rw [deg2rad_mod360]
  exact Real.cos_add_int_mul_two_pi _ _

theorem deg2rad_ninety_sub (t : ℝ) :
    deg2rad (90 - rad2deg t) = Real.pi / 2 - t := by
  simp only [deg2rad, rad2deg]
  have hπ := Real.pi_ne_zero
  field_simp
  ring

theorem deg2rad_twoseventy_sub (t : ℝ) :
    deg2rad (270 - rad2deg t) = 3 * Real.pi / 2 - t := by
  simp only [deg2rad, rad2deg]
  have hπ := Real.pi_ne_zero
  field_simp
  ring

theorem sqrt_sq_add_sq_eq_abs (u v : ℝ) :
    Real.sqrt (u ^ 2 + v ^ 2) = Complex.abs ⟨u, v⟩ := by
  rw [Complex.abs_apply, Complex.normSq_mk]
  congr 1
  ring

theorem mod360_of_nonneg_lt {x : ℝ} (h1 : 0 ≤ x) (h2 : x < 360) :
    mod360 x = x := by
  have hfl : ⌊x / 360⌋ = 0 := by
    rw [Int.floor_eq_zero_iff]
    constructor
    · positivity
    · rw [div_lt_one (by norm_num : (0:ℝ) < 360)]
      exact h2
  simp [mod360, hfl]

theorem roundtrip_same_category (u v : ℝ) (data_type : String) :
    intdir2uv (uv2intdir u v data_type 0).1 (uv2intdir u v data_type 0).2
      data_type = (u, v) := by
  have habs_cos : Complex.abs ⟨u, v⟩ * Real.cos (arctan2 v u) = u :=
    Complex.abs_mul_cos_arg ⟨u, v⟩
  have habs_sin : Complex.abs ⟨u, v⟩ * Real.sin (arctan2 v u) = v :=
    Complex.abs_mul_sin_arg ⟨u, v⟩
  by_cases h : pyLower data_type = "current"
  · simp only [uv2intdir, intdir2uv, if_pos h, sub_zero, Prod.mk.injEq]
    constructor
    · rw [sin_deg2rad_mod360, deg2rad_ninety_sub, Real.sin_pi_div_two_sub,
        sqrt_sq_add_sq_eq_abs]
      exact habs_cos
    · rw [cos_deg2rad_mod360, deg2rad_ninety_sub, Real.cos_pi_div_two_sub,
        sqrt_sq_add_sq_eq_abs]
      exact habs_sin
  · simp only [uv2intdir, intdir2uv, if_neg h, sub_zero, Prod.mk.injEq]
    have hsplit : 3 * Real.pi / 2 - arctan2 v u =
        (Real.pi / 2 - arctan2 v u) + Real.pi := by
      ring
    constructor
    · rw [sin_deg2rad_mod360, deg2rad_twoseventy_sub, hsplit, Real.sin_add_pi,
        Real.sin_pi_div_two_sub, sqrt_sq_add_sq_eq_abs]
      linear_combination habs_cos
    · rw [cos_deg2rad_mod360, deg2rad_twoseventy_sub, hsplit, Real.cos_add_pi,
        Real.cos_pi_div_two_sub, sqrt_sq_add_sq_eq_abs]
      linear_combination habs_sin

/- ### C1 -/

/-- C1: for every numeric input `(u, v)`, every category string and every
magnetic declination value, the direction returned by `uv2intdir` lies in
the half-open interval `[0, 360)` degrees. -/
theorem uv2intdir_direction_in_range (u v mag_decl : ℝ) (data_type : String) :
    0 ≤ (uv2intdir u v data_type mag_decl).2 ∧
      (uv2intdir u v data_type mag_decl).2 < 360 := by
  simp only [uv2intdir]
  split_ifs <;> exact ⟨mod360_nonneg _, mod360_lt _⟩

/- ### Concrete-angle helper lemmas -/

theorem arctan2_zero_one : arctan2 0 1 = 0 := by
  have h : (⟨1, 0⟩ : ℂ) = (1 : ℂ) := rfl
  simp only [arctan2, h, Complex.arg_one]

theorem arctan2_one_zero : arctan2 1 0 = Real.pi / 2 := by
  have h : (⟨0, 1⟩ : ℂ) = Complex.I := rfl
  simp only [arctan2, h, Complex.arg_I]

theorem rad2deg_zero : rad2deg 0 = 0 := by
  simp [rad2deg]

theorem rad2deg_pi_div_two : rad2deg (Real.pi / 2) = 90 := by
  simp only [rad2deg]
  have hπ := Real.pi_ne_zero
  field_simp
  ring

theorem deg2rad_ninety : deg2rad 90 = Real.pi / 2 := by
  simp only [deg2rad]
  ring

theorem uv2intdir_one_zero_current : uv2intdir 1 0 "current" 0 = (1, 90) := by
  have hc : pyLower "current" = "current" := by decide
  simp only [uv2intdir, if_pos hc, arctan2_zero_one, rad2deg_zero, sub_zero,
    Prod.mk.injEq]
  constructor
  · norm_num
  · exact mod360_of_nonneg_lt (by norm_num) (by norm_num)

theorem intdir2uv_one_ninety_current : intdir2uv 1 90 "current" = (1, 0) := by
  have hc : pyLower "current" = "current" := by decide
  simp only [intdir2uv, if_pos hc, deg2rad_ninety, Real.sin_pi_div_two,
    Real.cos_pi_div_two]
  norm_num

theorem uv2intdir_zero_one_current : (uv2intdir 0 1 "current" 0).2 = 0 := by
  have hc : pyLower "current" = "current" := by decide
  simp only [uv2intdir, if_pos hc, arctan2_one_zero, rad2deg_pi_div_two,
    sub_zero]
  rw [show (90 : ℝ) - 90 = 0 from by norm_num,
    mod360_of_nonneg_lt le_rfl (by norm_num)]

theorem uv2intdir_zero_one_wind : (uv2intdir 0 1 "wind" 0).2 = 180 := by
  have hw : pyLower "wind" ≠ "current" := by decide
  simp only [uv2intdir, if_neg hw, arctan2_one_zero, rad2deg_pi_div_two,
    sub_zero]
  rw [show (270 : ℝ) - 90 = 180 from by norm_num,
    mod360_of_nonneg_lt (by norm_num) (by norm_num)]

/- ### C2 -/

/-- C2: applying `uv2intdir` with magnetic declination 0 and then `intdir2uv`
with the same category recovers the original `(u, v)` exactly (floating-point
tolerance is vacuous over the reals), for every category and in all four
quadrants; in particular `u = 1, v = 0` with category `"current"` gives speed
1 and direction 90 degrees, which maps back to `u = 1, v = 0`. -/
theorem uv2intdir_intdir2uv_roundtrip :
    (∀ (u v : ℝ) (data_type : String),
        intdir2uv (uv2intdir u v data_type 0).1 (uv2intdir u v data_type 0).2
          data_type = (u, v)) ∧
    uv2intdir 1 0 "current" 0 = (1, 90) ∧ intdir2uv 1 90 "current" = (1, 0) :=
  ⟨roundtrip_same_category, uv2intdir_one_zero_current,
    intdir2uv_one_ninety_current⟩

/- ### C3 -/

/-- C3 counterexample: at `u = 0, v = 1` with declination 0 the code gives
direction 0 for category `"current"` and 180 for `"wind"`, not the 90 and 270
stated in the claim (those arise at `u = 1, v = 0`). -/
theorem uv2intdir_zero_one_example_false :
    (uv2intdir 0 1 "current" 0).2 = 0 ∧ (uv2intdir 0 1 "wind" 0).2 = 180 ∧
      ¬((uv2intdir 0 1 "current" 0).2 = 90 ∧
        (uv2intdir 0 1 "wind" 0).2 = 270) := by
  refine ⟨uv2intdir_zero_one_current, uv2intdir_zero_one_wind, ?_⟩
  rintro ⟨h, -⟩
  rw [uv2intdir_zero_one_current] at h
  norm_num at h

/-- C3 amended: for identical `(u, v)` with declination 0, category
`"current"` and any other category produce directions that differ by 180
degrees modulo 360; in particular for `u = 0, v = 1` category `"current"`
gives direction 0 degrees and category `"wind"` gives 180 degrees. -/
theorem uv2intdir_category_offset_180 (u v : ℝ) (data_type : String)
    (h : pyLower data_type ≠ "current") :
    (uv2intdir u v data_type 0).2 =
        mod360 ((uv2intdir u v "current" 0).2 + 180) ∧
      (uv2intdir 0 1 "current" 0).2 = 0 ∧ (uv2intdir 0 1 "wind" 0).2 = 180 := by
  have hc : pyLower "current" = "current" := by decide
  refine ⟨?_, uv2intdir_zero_one_current, uv2intdir_zero_one_wind⟩
  simp only [uv2intdir, if_neg h, if_pos hc, sub_zero]
  have key : mod360 (90 - rad2deg (arctan2 v u)) + 180 =
      (270 - rad2deg (arctan2 v u)) -
        360 * (⌊(90 - rad2deg (arctan2 v u)) / 360⌋ : ℤ) := by
    simp only [mod360]
    ring
  rw [key, mod360_sub_int_mul]

/-- Witness for the amended C3, at `u = 0, v = 1` with category `"wind"`. -/
theorem uv2intdir_category_offset_180_witness :
    pyLower "wind" ≠ "current" ∧
      ((uv2intdir 0 1 "wind" 0).2 =
          mod360 ((uv2intdir 0 1 "current" 0).2 + 180) ∧
        (uv2intdir 0 1 "current" 0).2 = 0 ∧
        (uv2intdir 0 1 "wind" 0).2 = 180) :=
  ⟨by decide, uv2intdir_category_offset_180 0 1 "wind" (by decide)⟩

/- ### C9 -/

/-- C9: in both `uv2intdir` and `intdir2uv` the category string is matched
case-insensitively (after lowercasing), every value other than `"current"`
selects the wind/wave branch, and no category string is rejected: each call
behaves exactly like the call with category `"current"` or `"wind"`. -/
theorem category_case_insensitive_fallback :
    (∀ (u v mag_decl : ℝ) (data_type : String),
        uv2intdir u v data_type mag_decl =
          if pyLower data_type = "current" then uv2intdir u v "current" mag_decl
          else uv2intdir u v "wind" mag_decl) ∧
    (∀ (spd direc : ℝ) (data_type : String),
        intdir2uv spd direc data_type =
          if pyLower data_type = "current" then intdir2uv spd direc "current"
          else intdir2uv spd direc "wind") ∧
    (∀ (u v mag_decl : ℝ),
        uv2intdir u v "CURRENT" mag_decl = uv2intdir u v "current" mag_decl) ∧
    (∀ (spd direc : ℝ),
        intdir2uv spd direc "WaVe" = intdir2uv spd direc "wind") := by
  have hc : pyLower "current" = "current" := by decide
  have hw : pyLower "wind" = "wind" := by decide
  have hC : pyLower "CURRENT" = "current" := by decide
  have hW : pyLower "WaVe" = "wave" := by decide
  refine ⟨fun u v m dt => ?_, fun s d dt => ?_, fun u v m => ?_, fun s d => ?_⟩
  · by_cases h : pyLower dt = "current"
    · simp [uv2intdir, h, hc]
    · simp [uv2intdir, h, hc, hw]
  · by_cases h : pyLower dt = "current"
    · simp [intdir2uv, h, hc]
    · simp [intdir2uv, h, hc, hw]
  · simp [uv2intdir, hC, hc]
  · simp [intdir2uv, hW, hc, hw]

/- ### C4 -/

/-- C4 counterexample: for instants 0 and 1 microsecond the two argument
orders disagree: the half of one microsecond rounds to zero (ties to even),
so `central_date 0 1 = 0` while `central_date 1 0 = 1`. -/
theorem central_date_not_symmetric :
    central_date 0 1 = 0 ∧ central_date 1 0 = 1 ∧
      central_date 0 1 ≠ central_date 1 0 := by
  decide

/-- C4 amended: `central_date t0 t1 = central_date t1 t0` whenever the
difference `t1 - t0` spans an even number of microseconds; with an odd
difference the two orders land one microsecond apart. -/
theorem central_date_symmetric_of_even (t0 t1 : ℤ)
    (h : (t1 - t0) % 2 = 0) : central_date t0 t1 = central_date t1 t0 := by
  simp only [central_date, timedeltaHalf]
  split_ifs <;> omega

/-- Witness for the amended C4, at the instants 0 and 2 microseconds. -/
theorem central_date_symmetric_of_even_witness :
    ((2 : ℤ) - 0) % 2 = 0 ∧ central_date 0 2 = central_date 2 0 :=
  ⟨by decide, central_date_symmetric_of_even 0 2 (by decide)⟩

/- ### C5 -/

/-- C5: `central_date` returns exactly `initial + (final - initial) / 2`
under the time representation arithmetic (integer microseconds, with the
half of a timedelta rounded to the nearest microsecond: twice the computed
half never strays from the exact difference by more than one microsecond,
and an even difference is halved exactly); in the degenerate case where
initial equals final it returns that same instant. -/
theorem central_date_exact_midpoint :
    (∀ t : ℤ, central_date t t = t) ∧
    (∀ iniDate finDate : ℤ,
        central_date iniDate finDate =
          iniDate + timedeltaHalf (finDate - iniDate)) ∧
    (∀ d : ℤ, |2 * timedeltaHalf d - d| ≤ 1) ∧
    (∀ d : ℤ, timedeltaHalf (2 * d) = d) := by
  refine ⟨fun t => ?_, fun i f => rfl, fun d => ?_, fun d => ?_⟩
  · simp only [central_date, sub_self, timedeltaHalf]
    split_ifs <;> omega
  · rw [abs_le]
    simp only [timedeltaHalf]
    constructor <;> (split_ifs <;> omega)
  · simp only [timedeltaHalf]
    split_ifs <;> omega

/- ### C7 -/

/-- C7: `dirstats` drops the missing entries before computing every
statistic, so its output on a series containing missing values equals its
output on the subsequence of non-missing entries; in particular on
`[NaN, 10, 350]` it equals `dirstats [10, 350]`. -/
theorem dirstats_drops_missing :
    (∀ direc : List (Option ℝ),
        dirstats direc = dirstats ((dropna direc).map some)) ∧
    dirstats [none, some 10, some 350] = dirstats [some 10, some 350] := by
  have key : ∀ direc : List (Option ℝ),
      dropna ((dropna direc).map some) = dropna direc := by
    intro direc
    simp [dropna, List.filterMap_map]
  have main : ∀ direc : List (Option ℝ),
      dirstats direc = dirstats ((dropna direc).map some) := by
    intro direc
    simp only [dirstats, nanmin, nanmax, key]
  refine ⟨main, ?_⟩
  have h := main [none, some 10, some 350]
  have hdrop : dropna [none, some 10, some 350] = [10, 350] := by
    simp [dropna]
  rw [hdrop] at h
  simpa using h

/- ### C8 -/

/-- C8: `dirstats` computes the mean as a circular mean via sine/cosine
decomposition, so on the input `[350, 10]` (degrees, no missing values) the
returned mean is exactly 0 degrees (over the reals), not the ordinary
arithmetic mean `(350 + 10) / 2 = 180`. -/
theorem dirstats_mean_is_circular :
    (dirstats [some 350, some 10]).1 = 0 ∧
      (dirstats [some 350, some 10]).1 ≠ (350 + 10) / 2 := by
  have h350 : deg2rad 350 = 2 * Real.pi - deg2rad 10 := by
    simp only [deg2rad]
    ring
  have hsin : Real.sin (deg2rad 350) = -Real.sin (deg2rad 10) := by
    rw [h350, Real.sin_two_pi_sub]
  have hcos : Real.cos (deg2rad 350) = Real.cos (deg2rad 10) := by
    rw [h350, Real.cos_two_pi_sub]
  have hsum_sin : listMean (List.map Real.sin [deg2rad 350, deg2rad 10]) = 0 := by
    simp only [List.map_cons, List.map_nil, listMean, List.sum_cons,
      List.sum_nil, List.length_cons, List.length_nil]
    rw [hsin]
    norm_num
  have hsum_cos : listMean (List.map Real.cos [deg2rad 350, deg2rad 10]) =
      Real.cos (deg2rad 10) := by
    simp only [List.map_cons, List.map_nil, listMean, List.sum_cons,
      List.sum_nil, List.length_cons, List.length_nil]
    rw [hcos]
    norm_num
  have hc_pos : 0 < Real.cos (deg2rad 10) := by
    apply Real.cos_pos_of_mem_Ioo
    constructor
    · simp only [deg2rad]
      nlinarith [Real.pi_pos]
    · simp only [deg2rad]
      nlinarith [Real.pi_pos]
  have hcm : circmean [deg2rad 350, deg2rad 10] = 0 := by
    rw [circmean, hsum_sin, hsum_cos, arctan2]
    rw [show (⟨Real.cos (deg2rad 10), 0⟩ : ℂ) =
        ((Real.cos (deg2rad 10) : ℝ) : ℂ) from rfl]
    rw [Complex.arg_ofReal_of_nonneg hc_pos.le]
    simp [mod2pi]
  have hdrop : dropna [some 350, some 10] = [350, 10] := by
    simp [dropna]
  have hmean : (dirstats [some 350, some 10]).1 = 0 := by
    simp only [dirstats, hdrop, List.map_cons, List.map_nil]
    rw [hcm, rad2deg_zero]
  exact ⟨hmean, by rw [hmean]; norm_num⟩

/- ### C6 -/

theorem nearest_core (t : ℚ) (arr : List ℚ) (hne : arr ≠ []) :
    ∃ v i, pyMinKey (fun x => |x - t|) arr = some v ∧
      npWhereFirst arr v = some i ∧
      i < arr.length ∧ arr.getD i 0 = v ∧
      (∀ j, j < arr.length → |v - t| ≤ |arr.getD j 0 - t|) ∧
      (∀ j, j < i → |v - t| < |arr.getD j 0 - t|) := by
  induction arr with
  | nil => exact absurd rfl hne
  | cons x xs ih =>
    rcases eq_or_ne xs [] with hxs | hxs
    · subst hxs
      refine ⟨x, 0, ?_, ?_, ?_, ?_, ?_, ?_⟩
      · simp [pyMinKey]
      · simp [npWhereFirst]
      · simp
      · simp
      · intro j hj
        have hj0 : j = 0 := by
          simp at hj
          omega
        subst hj0
        simp
      · intro j hj
        exact absurd hj (Nat.not_lt_zero j)
    · obtain ⟨v, i, hmin, hwhere, hlen, hget, hle, hlt⟩ := ih hxs
      have hstep : pyMinKey (fun y => |y - t|) (x :: xs) =
          some (if |v - t| < |x - t| then v else x) := by
        simp only [pyMinKey, hmin]
      by_cases hc : |v - t| < |x - t|
      · have hxv : x ≠ v := by
          rintro rfl
          exact absurd hc (lt_irrefl _)
        refine ⟨v, i + 1, ?_, ?_, ?_, ?_, ?_, ?_⟩
        · rw [hstep, if_pos hc]
        · simp only [npWhereFirst, if_neg hxv, hwhere, Option.map_some']
        · simpa [List.length_cons] using Nat.succ_lt_succ hlen
        · simpa [List.getD_cons_succ] using hget
        · intro j hj
          cases j with
          | zero => simpa [List.getD_cons_zero] using hc.le
          | succ j =>
            rw [List.getD_cons_succ]
            exact hle j (by simpa [List.length_cons] using hj)
        · intro j hj
          cases j with
          | zero => simpa [List.getD_cons_zero] using hc
          | succ j =>
            rw [List.getD_cons_succ]
            exact hlt j (Nat.lt_of_succ_lt_succ hj)
      · refine ⟨x, 0, ?_, ?_, ?_, ?_, ?_, ?_⟩
        · rw [hstep, if_neg hc]
        · simp [npWhereFirst]
        · simp
        · simp
        · intro j hj
          cases j with
          | zero => simp
          | succ j =>
            rw [List.getD_cons_succ]
            calc |x - t| ≤ |v - t| := le_of_not_lt hc
              _ ≤ _ := hle j (by simpa using hj)
        · intro j hj
          exact absurd hj (Nat.not_lt_zero j)

/-- C6: on non-empty candidate arrays, `find_nearest_lonlat` returns, for
each array independently, the index of the element with minimum absolute
difference to the target, taking the first occurrence when several
candidates tie; in particular `lon_arr = [10, 10, 20]` with target 10
yields index 0. -/
theorem find_nearest_lonlat_first_min (lon lat : ℚ)
    (lon_arr lat_arr : List ℚ) (h1 : lon_arr ≠ []) (h2 : lat_arr ≠ []) :
    (∃ i j, find_nearest_lonlat lon lat lon_arr lat_arr = some (i, j) ∧
        isFirstNearest lon lon_arr i ∧ isFirstNearest lat lat_arr j) ∧
      find_nearest_lonlat 10 10 [10, 10, 20] [10, 10, 20] = some (0, 0) := by
  constructor
  · obtain ⟨v1, i, hm1, hw1, hl1, hg1, hle1, hlt1⟩ := nearest_core lon lon_arr h1
    obtain ⟨v2, j, hm2, hw2, hl2, hg2, hle2, hlt2⟩ := nearest_core lat lat_arr h2
    refine ⟨i, j, ?_, ⟨hl1, ?_, ?_⟩, ⟨hl2, ?_, ?_⟩⟩
    · simp only [find_nearest_lonlat, hm1, hm2, hw1, hw2]
    · intro j' hj'
      rw [hg1]
      exact hle1 j' hj'
    · intro j' hj'
      rw [hg1]
      exact hlt1 j' hj'
    · intro j' hj'
      rw [hg2]
      exact hle2 j' hj'
    · intro j' hj'
      rw [hg2]
      exact hlt2 j' hj'
  · norm_num [find_nearest_lonlat, pyMinKey, npWhereFirst]

/-- Witness for C6: a tied longitude array and a singleton latitude array. -/
theorem find_nearest_lonlat_first_min_witness :
    ((∃ i j, find_nearest_lonlat 10 7 [10, 10, 20] [7] = some (i, j) ∧
        isFirstNearest 10 [10, 10, 20] i ∧ isFirstNearest 7 [7] j) ∧
      find_nearest_lonlat 10 10 [10, 10, 20] [10, 10, 20] = some (0, 0)) :=
  find_nearest_lonlat_first_min 10 7 [10, 10, 20] [7] (by simp) (by simp)

/- ### C10 -/

/-- C10: with an empty longitude or latitude candidate array the lookup does
not return an index pair: the underlying minimum search fails on an empty
sequence (modelled by the `none` result). -/
theorem find_nearest_lonlat_empty (lon lat : ℚ) (lon_arr lat_arr : List ℚ) :
    find_nearest_lonlat lon lat [] lat_arr = none ∧
      find_nearest_lonlat lon lat lon_arr [] = none := by
  constructor
  · cases h : pyMinKey (fun x => |x - lat|) lat_arr <;>
      simp [find_nearest_lonlat, pyMinKey, h]
  · cases h : pyMinKey (fun x => |x - lon|) lon_arr <;>
      simp [find_nearest_lonlat, pyMinKey, h]

end HandyFunctions
